import Mathlib

/-!
Shallow embedding of `src/topographic_anomaly.py` (the core algorithm:
point model, sector binner, correction engine, batch driver).

Python floats are modelled as real numbers.  The `float('inf')` sentinel
stored in a bin's `closest` field is modelled with `EReal` (extended
reals), whose top element plays the role of `inf`.  Python's
`math.atan2 y x` is `Complex.arg (x + y*I)` on reals (both have range
from -pi exclusive to pi inclusive), and Python's `int()` on a float is
truncation toward zero.
-/

open Real

/-- Python `int()` applied to a real number: truncation toward zero
(floor for nonnegative arguments). -/
noncomputable def pyInt (x : ℝ) : ℤ := if 0 ≤ x then ⌊x⌋ else -⌊-x⌋

/-- Python `math.atan2 y x`, i.e. the argument of the complex number
`x + y*I`, with range from `-π` (exclusive) to `π` (inclusive). -/
noncomputable def atan2 (y x : ℝ) : ℝ := Complex.arg ⟨x, y⟩

/-- Constant `gravity_constant = 6.67430e-11` from the source. -/
noncomputable def gravity_constant : ℝ := 6.67430e-11

/-- Constant `rho = 2.670` from the source. -/
noncomputable def rho : ℝ := 2.670

/-- Constant `ref_point_seek_range = 1200` (the radial cutoff). -/
noncomputable def ref_point_seek_range : ℝ := 1200

/-- A reference (DEM) point: `ReferencePoint.__init__` stores id and the
parsed coordinates.  Coordinate parsing (comma-decimal text) is the
data-access layer; the core receives real-valued fields. -/
structure ReferencePoint where
  id : ℤ
  north : ℝ
  east : ℝ
  height : ℝ

/-- One entry of `measurement_point.connected_refs`: the dict
`{'ref_point': r, 'distance': d, 'slice': s}`. -/
structure RefLink where
  ref_point : ReferencePoint
  distance : ℝ
  slice : ℤ

/-- One value of the `slice_distances` dict:
`{'closest': float('inf'), 'farthest': 0, 'heights': []}`.
`closest` lives in `EReal` so that the `float('inf')` initial sentinel
is representable; `heights` is initialised and never touched, exactly as
in the source. -/
structure SliceData where
  closest : EReal
  farthest : ℝ
  heights : List ℝ

/-- A measurement point: id, parsed coordinates and height, plus the
mutable binning state (`connected_refs` and `slice_distances`).  The
Python dict keyed by `1..8` is modelled as a total function on `ℤ`;
only keys `1..8` are ever read or written. -/
structure MeasurementPoint where
  id : ℤ
  north : ℝ
  east : ℝ
  height : ℝ
  connected_refs : List RefLink
  slice_distances : ℤ → SliceData

/-- State of a `MeasurementPoint` right after `__init__`: no connected
references, every bin `{'closest': inf, 'farthest': 0, 'heights': []}`. -/
noncomputable def MeasurementPoint.init (id : ℤ) (north east height : ℝ) :
    MeasurementPoint :=
  { id := id, north := north, east := east, height := height
    connected_refs := []
    slice_distances := fun _ => { closest := ⊤, farthest := 0, heights := [] } }

/-- The sector computation on line 58 of the source:
`slice = int((angle + pi) / (pi / 4)) % 8 + 1`. -/
noncomputable def sliceIndex (angle : ℝ) : ℤ :=
  pyInt ((angle + Real.pi) / (Real.pi / 4)) % 8 + 1

/-- The conditional update of a bin's `closest` field on line 64:
`min(closest, distance) if closest <= ref_point_seek_range else distance`. -/
noncomputable def updateClosest (closest : EReal) (distance : ℝ) : EReal :=
  if closest ≤ (ref_point_seek_range : EReal) then min closest (distance : EReal)
  else (distance : EReal)

/-- `MeasurementPoint.connect_reference_point` from the source: compute
the sector, and if the distance is within the cutoff, append the link
and update that sector's `closest`/`farthest`; otherwise do nothing. -/
noncomputable def MeasurementPoint.connect_reference_point
    (m : MeasurementPoint) (ref_point : ReferencePoint)
    (distance angle : ℝ) : MeasurementPoint :=
  let slice := sliceIndex angle
  if distance ≤ ref_point_seek_range then
    let slice_data := m.slice_distances slice
    { m with
      connected_refs := m.connected_refs ++
        [{ ref_point := ref_point, distance := distance, slice := slice }]
      slice_distances := Function.update m.slice_distances slice
        { slice_data with
          closest := updateClosest slice_data.closest distance
          farthest := max slice_data.farthest distance } }
  else m

/-- `MeasurementPoint.distance_to`: planar Euclidean distance. -/
noncomputable def MeasurementPoint.distance_to
    (self : MeasurementPoint) (other_point : ReferencePoint) : ℝ :=
  Real.sqrt ((self.north - other_point.north) ^ 2 + (self.east - other_point.east) ^ 2)

/-- `MeasurementPoint.angle_to`: `atan2(ΔEast, ΔNorth)`. -/
noncomputable def MeasurementPoint.angle_to
    (self : MeasurementPoint) (other_point : ReferencePoint) : ℝ :=
  atan2 (other_point.east - self.east) (other_point.north - self.north)

/-- Line 94 of the source filters `connected_refs` with
`ref_point['slice'] == slice_data`, comparing the link's integer slice
index with the bin dictionary itself (the loop runs over
`slice_distances.values()`, so `slice_data` is the dict, not the key).
In Python an `==` comparison between an `int` and a `dict` is always
`False`, which this predicate reproduces. -/
def pyIntEqDict (_slice : ℤ) (_slice_data : SliceData) : Bool := false

/-- The body of the per-sector loop of `calculate_correction` (the
production, non-verbose routine): the value added to `correction` for
the bin with key `i`. -/
noncomputable def sliceSummand (measurement_point : MeasurementPoint) (i : ℤ) : ℝ :=
  let slice_data := measurement_point.slice_distances i
  if 0 < slice_data.farthest then
    let R := slice_data.farthest
    let _r := slice_data.closest
    let ref_heights :=
      (measurement_point.connected_refs.filter
        (fun link => pyIntEqDict link.slice slice_data)).map
        (fun link => link.ref_point.height)
    let avg_height_difference :=
      if ref_heights.isEmpty then measurement_point.height
      else measurement_point.height - ref_heights.sum / (ref_heights.length : ℝ)
    let sqrt_part1 := Real.sqrt (avg_height_difference ^ 2 + 0 ^ 2)
    let sqrt_part2 := Real.sqrt (avg_height_difference ^ 2 + R ^ 2)
    R - 0 + sqrt_part1 - sqrt_part2
  else 0

/-- `calculate_correction` from the source: sum the eight per-sector
summands (dict iteration order is key order `1..8`) and scale by
`(2/8) * pi * gravity_constant * rho * 10**5`. -/
noncomputable def calculate_correction (measurement_point : MeasurementPoint) : ℝ :=
  let correction :=
    ((List.range 8).map (fun (k : ℕ) => sliceSummand measurement_point ((k : ℤ) + 1))).sum
  correction * ((2 / 8) * Real.pi * gravity_constant * rho * 10 ^ 5)

/-- The binning double loop of the driver, specialised to one
measurement point: connect every reference point in order, with the
distance and angle computed from the point's coordinates. -/
noncomputable def connectAll (m_point : MeasurementPoint)
    (reference_points : List ReferencePoint) : MeasurementPoint :=
  reference_points.foldl
    (fun mp r_point =>
      mp.connect_reference_point r_point (mp.distance_to r_point) (mp.angle_to r_point))
    m_point

/-- The batch driver: bin every (measurement, reference) pair, then one
correction per measurement point, aligned with the input order. -/
noncomputable def batchCorrections (measurement_points : List MeasurementPoint)
    (reference_points : List ReferencePoint) : List ℝ :=
  measurement_points.map
    (fun m_point => calculate_correction (connectAll m_point reference_points))

/-- A raw sequence of `connect_reference_point` calls (reference point,
distance, angle), not necessarily produced by the driver. -/
noncomputable def connectList (m : MeasurementPoint)
    (l : List (ReferencePoint × ℝ × ℝ)) : MeasurementPoint :=
  l.foldl (fun mp p => mp.connect_reference_point p.1 p.2.1 p.2.2) m

/-- The links of `m` whose recorded slice index is `i` (the filter the
verbose routine, and the spec, intend). -/
def sectorLinks (m : MeasurementPoint) (i : ℤ) : List RefLink :=
  m.connected_refs.filter (fun link => link.slice == i)

/-! ### Basic lemmas about the binner -/

theorem connect_of_far {m : MeasurementPoint} {r : ReferencePoint} {d θ : ℝ}
    (hd : ref_point_seek_range < d) :
    m.connect_reference_point r d θ = m := by
  simp only [MeasurementPoint.connect_reference_point]
  rw [if_neg (not_le.mpr hd)]

theorem connect_north (m : MeasurementPoint) (r : ReferencePoint) (d θ : ℝ) :
    (m.connect_reference_point r d θ).north = m.north := by
  simp only [MeasurementPoint.connect_reference_point]
  split <;> rfl

theorem connect_east (m : MeasurementPoint) (r : ReferencePoint) (d θ : ℝ) :
    (m.connect_reference_point r d θ).east = m.east := by
  simp only [MeasurementPoint.connect_reference_point]
  split <;> rfl

theorem connect_height (m : MeasurementPoint) (r : ReferencePoint) (d θ : ℝ) :
    (m.connect_reference_point r d θ).height = m.height := by
  simp only [MeasurementPoint.connect_reference_point]
  split <;> rfl

theorem connect_links (m : MeasurementPoint) (r : ReferencePoint) (d θ : ℝ) :
    (m.connect_reference_point r d θ).connected_refs =
      if d ≤ ref_point_seek_range then
        m.connected_refs ++ [{ ref_point := r, distance := d, slice := sliceIndex θ }]
      else m.connected_refs := by
  simp only [MeasurementPoint.connect_reference_point]
  split <;> rfl

theorem connect_farthest (m : MeasurementPoint) (r : ReferencePoint) (d θ : ℝ) (i : ℤ) :
    ((m.connect_reference_point r d θ).slice_distances i).farthest =
      if d ≤ ref_point_seek_range ∧ sliceIndex θ = i then
        max (m.slice_distances i).farthest d
      else (m.slice_distances i).farthest := by
  simp only [MeasurementPoint.connect_reference_point]
  by_cases hd : d ≤ ref_point_seek_range
  · rw [if_pos hd]
    by_cases hs : sliceIndex θ = i
    · rw [if_pos ⟨hd, hs⟩]
      dsimp only
      rw [Function.update_apply, if_pos hs.symm, hs]
    · rw [if_neg (fun h => hs h.2)]
      dsimp only
      rw [Function.update_apply, if_neg (fun h => hs h.symm)]
  · rw [if_neg hd, if_neg (fun h => hd h.1)]

theorem connect_closest (m : MeasurementPoint) (r : ReferencePoint) (d θ : ℝ) (i : ℤ) :
    ((m.connect_reference_point r d θ).slice_distances i).closest =
      if d ≤ ref_point_seek_range ∧ sliceIndex θ = i then
        updateClosest (m.slice_distances i).closest d
      else (m.slice_distances i).closest := by
  simp only [MeasurementPoint.connect_reference_point]
  by_cases hd : d ≤ ref_point_seek_range
  · rw [if_pos hd]
    by_cases hs : sliceIndex θ = i
    · rw [if_pos ⟨hd, hs⟩]
      dsimp only
      rw [Function.update_apply, if_pos hs.symm, hs]
    · rw [if_neg (fun h => hs h.2)]
      dsimp only
      rw [Function.update_apply, if_neg (fun h => hs h.symm)]
  · rw [if_neg hd, if_neg (fun h => hd h.1)]

theorem connectAll_cons (m : MeasurementPoint) (r : ReferencePoint)
    (rs : List ReferencePoint) :
    connectAll m (r :: rs) =
      connectAll (m.connect_reference_point r (m.distance_to r) (m.angle_to r)) rs := rfl

theorem connectList_cons (m : MeasurementPoint) (p : ReferencePoint × ℝ × ℝ)
    (l : List (ReferencePoint × ℝ × ℝ)) :
    connectList m (p :: l) =
      connectList (m.connect_reference_point p.1 p.2.1 p.2.2) l := rfl

theorem connect_distance_to (m : MeasurementPoint) (r : ReferencePoint) (d θ : ℝ)
    (r' : ReferencePoint) :
    (m.connect_reference_point r d θ).distance_to r' = m.distance_to r' := by
  unfold MeasurementPoint.distance_to
  rw [connect_north, connect_east]

theorem connect_angle_to (m : MeasurementPoint) (r : ReferencePoint) (d θ : ℝ)
    (r' : ReferencePoint) :
    (m.connect_reference_point r d θ).angle_to r' = m.angle_to r' := by
  unfold MeasurementPoint.angle_to
  rw [connect_east, connect_north]

theorem connectAll_height (rs : List ReferencePoint) :
    ∀ m : MeasurementPoint, (connectAll m rs).height = m.height := by
  induction rs with
  | nil => intro m; rfl
  | cons r t ih => intro m; rw [connectAll_cons, ih, connect_height]

/-! ### The production correction engine -/

theorem filter_false_eq_nil {α : Type _} (l : List α) :
    l.filter (fun _ => false) = [] := by
  induction l with
  | nil => rfl
  | cons a t ih => simp [ih]

/-- The filter on line 94 compares an integer with a dict and therefore
never matches: the per-sector summand always takes the fallback branch
`avg_height_difference = measurement_point.height`. -/
theorem sliceSummand_eq (m : MeasurementPoint) (i : ℤ) :
    sliceSummand m i =
      if 0 < (m.slice_distances i).farthest then
        (m.slice_distances i).farthest - 0 + Real.sqrt (m.height ^ 2 + 0 ^ 2) -
          Real.sqrt (m.height ^ 2 + (m.slice_distances i).farthest ^ 2)
      else 0 := by
  unfold sliceSummand
  simp only [pyIntEqDict, filter_false_eq_nil, List.map_nil, List.isEmpty_nil, if_true]

theorem sliceSummand_of_farthest_zero (m : MeasurementPoint) (i : ℤ)
    (h : (m.slice_distances i).farthest = 0) : sliceSummand m i = 0 := by
  rw [sliceSummand_eq, if_neg (by rw [h]; exact lt_irrefl 0)]

theorem calculate_correction_congr (m₁ m₂ : MeasurementPoint)
    (hh : m₁.height = m₂.height)
    (hf : ∀ i, (m₁.slice_distances i).farthest = (m₂.slice_distances i).farthest) :
    calculate_correction m₁ = calculate_correction m₂ := by
  unfold calculate_correction
  simp only [sliceSummand_eq, hh, hf]

theorem scale_factor_pos : 0 < (2 / 8) * Real.pi * gravity_constant * rho * 10 ^ 5 := by
  simp only [gravity_constant, rho]
  positivity

theorem sliceSummand_nonneg (m : MeasurementPoint) (i : ℤ) : 0 ≤ sliceSummand m i := by
  rw [sliceSummand_eq]
  split_ifs with hfa
  · have e0 : m.height ^ 2 + 0 ^ 2 = m.height ^ 2 := by ring
    rw [e0, Real.sqrt_sq_eq_abs]
    have habs : 0 ≤ |m.height| + (m.slice_distances i).farthest := by
      have := abs_nonneg m.height
      linarith
    have hle : Real.sqrt (m.height ^ 2 + (m.slice_distances i).farthest ^ 2) ≤
        |m.height| + (m.slice_distances i).farthest := by
      rw [show |m.height| + (m.slice_distances i).farthest =
          Real.sqrt ((|m.height| + (m.slice_distances i).farthest) ^ 2) from
        (Real.sqrt_sq habs).symm]
      apply Real.sqrt_le_sqrt
      have h1 : 0 ≤ |m.height| * (m.slice_distances i).farthest :=
        mul_nonneg (abs_nonneg _) hfa.le
      have h2 : |m.height| ^ 2 = m.height ^ 2 := sq_abs m.height
      nlinarith
    linarith
  · exact le_refl 0

theorem calculate_correction_nonneg (m : MeasurementPoint) :
    0 ≤ calculate_correction m := by
  unfold calculate_correction
  apply mul_nonneg _ scale_factor_pos.le
  apply List.sum_nonneg
  intro x hx
  obtain ⟨k, _, rfl⟩ := List.mem_map.mp hx
  exact sliceSummand_nonneg m _

/-! ### Claim theorems: frame condition, noninterference, nonnegativity -/

/-- C6: a (measurement point, reference point) pair whose distance
exceeds the radial cutoff leaves the measurement point's state completely
unchanged: no link is appended, no bin membership is created, and no
bin's `closest` or `farthest` value is modified. -/
theorem connect_beyond_cutoff_unchanged (m : MeasurementPoint) (r : ReferencePoint)
    (d θ : ℝ) (hd : ref_point_seek_range < d) :
    m.connect_reference_point r d θ = m :=
  connect_of_far hd

/-- Witness for C6 at a concrete out-of-range input. -/
theorem connect_beyond_cutoff_unchanged_w :
    (MeasurementPoint.init 1 0 0 100).connect_reference_point ⟨2, 0, 1000, 50⟩ 1300 0 =
      MeasurementPoint.init 1 0 0 100 :=
  connect_beyond_cutoff_unchanged _ _ 1300 0 (by norm_num [ref_point_seek_range])

/-- C3: the production `calculate_correction` is independent of the
heights of the linked reference points: any two binning states that
agree on the measurement height and on every bin's `farthest` distance
(but may differ arbitrarily elsewhere, in particular in every
reference-point height) produce the same correction. -/
theorem correction_independent_of_ref_heights (m₁ m₂ : MeasurementPoint)
    (hh : m₁.height = m₂.height)
    (hf : ∀ i, (m₁.slice_distances i).farthest = (m₂.slice_distances i).farthest) :
    calculate_correction m₁ = calculate_correction m₂ :=
  calculate_correction_congr m₁ m₂ hh hf

/-- Two concrete binning states that differ only in the height recorded
for the linked reference point (50 versus 999). -/
noncomputable def stateWithRefHeight (h : ℝ) : MeasurementPoint :=
  { id := 1, north := 0, east := 0, height := 100
    connected_refs := [{ ref_point := ⟨2, 0, 1000, h⟩, distance := 1000, slice := 7 }]
    slice_distances := fun j =>
      if j = 7 then { closest := ((1000 : ℝ) : EReal), farthest := 1000, heights := [] }
      else { closest := ⊤, farthest := 0, heights := [] } }

/-- Witness for C3: the two states disagree on the reference height yet
get the same correction. -/
theorem correction_independent_of_ref_heights_w :
    calculate_correction (stateWithRefHeight 50) =
      calculate_correction (stateWithRefHeight 999) :=
  correction_independent_of_ref_heights _ _ rfl (fun _ => rfl)

/-- C10: the correction returned by `calculate_correction` is always
nonnegative; each per-sector summand is nonnegative, and the final scale
factor `(2/8)*pi*G*rho*10^5` is positive. -/
theorem correction_nonneg :
    (∀ m : MeasurementPoint, 0 ≤ calculate_correction m) ∧
    (∀ (m : MeasurementPoint) (i : ℤ), 0 ≤ sliceSummand m i) ∧
    0 < (2 / 8) * Real.pi * gravity_constant * rho * 10 ^ 5 :=
  ⟨calculate_correction_nonneg, sliceSummand_nonneg, scale_factor_pos⟩

/-! ### Sector assignment -/

theorem sliceIndex_mem_of_bearing (θ : ℝ) (h1 : -Real.pi < θ) (_h2 : θ ≤ Real.pi) :
    1 ≤ sliceIndex θ ∧ sliceIndex θ ≤ 8 := by
  have hx : 0 ≤ (θ + Real.pi) / (Real.pi / 4) :=
    div_nonneg (by linarith) (by positivity)
  unfold sliceIndex pyInt
  rw [if_pos hx]
  have h0 : 0 ≤ ⌊(θ + Real.pi) / (Real.pi / 4)⌋ % 8 :=
    Int.emod_nonneg _ (by norm_num)
  have h8 : ⌊(θ + Real.pi) / (Real.pi / 4)⌋ % 8 < 8 :=
    Int.emod_lt_of_pos _ (by norm_num)
  omega

theorem sliceIndex_of_wedge (k : ℤ) (hk1 : 1 ≤ k) (hk8 : k ≤ 8) (θ : ℝ)
    (hlo : -Real.pi + ((k : ℝ) - 1) * (Real.pi / 4) ≤ θ)
    (hhi : θ < -Real.pi + (k : ℝ) * (Real.pi / 4)) :
    sliceIndex θ = k := by
  have hπ4 : (0 : ℝ) < Real.pi / 4 := by positivity
  have hxlo : ((k : ℝ) - 1) ≤ (θ + Real.pi) / (Real.pi / 4) := by
    rw [le_div_iff₀ hπ4]; linarith
  have hxhi : (θ + Real.pi) / (Real.pi / 4) < (k : ℝ) := by
    rw [div_lt_iff₀ hπ4]; linarith
  have hfl : ⌊(θ + Real.pi) / (Real.pi / 4)⌋ = k - 1 := by
    rw [Int.floor_eq_iff]
    constructor
    · push_cast; linarith
    · push_cast; linarith
  have hk0 : (0 : ℝ) ≤ (k : ℝ) - 1 := by
    have : (1 : ℝ) ≤ (k : ℝ) := by exact_mod_cast hk1
    linarith
  unfold sliceIndex pyInt
  rw [if_pos (le_trans hk0 hxlo), hfl, Int.emod_eq_of_lt (by omega) (by omega)]
  omega

theorem sliceIndex_pi : sliceIndex Real.pi = 1 := by
  have hπ : Real.pi ≠ 0 := Real.pi_ne_zero
  have hx : (Real.pi + Real.pi) / (Real.pi / 4) = 8 := by
    field_simp
    ring
  unfold sliceIndex pyInt
  rw [hx, if_pos (by norm_num : (0 : ℝ) ≤ 8),
    show ((8 : ℝ)) = ((8 : ℤ) : ℝ) by norm_num, Int.floor_intCast]
  decide

/-- C4: bearings produced by `angle_to` lie in the range from `-π`
(exclusive) to `π` (inclusive); on that range the sector index
`int((θ + π)/(π/4)) % 8 + 1` always lies in `1..8` (so sector
assignment is total, and exclusive because it is a function); the eight
sectors are the eight equal 45-degree wedges starting at bearing `-π`,
with the single boundary bearing `π` wrapping around to wedge 1. -/
theorem sector_assignment_total :
    (∀ (m : MeasurementPoint) (r : ReferencePoint),
      -Real.pi < m.angle_to r ∧ m.angle_to r ≤ Real.pi) ∧
    (∀ θ : ℝ, -Real.pi < θ → θ ≤ Real.pi → 1 ≤ sliceIndex θ ∧ sliceIndex θ ≤ 8) ∧
    (∀ k : ℤ, 1 ≤ k → k ≤ 8 → ∀ θ : ℝ,
      -Real.pi + ((k : ℝ) - 1) * (Real.pi / 4) ≤ θ →
      θ < -Real.pi + (k : ℝ) * (Real.pi / 4) → sliceIndex θ = k) ∧
    sliceIndex Real.pi = 1 :=
  ⟨fun _ _ => ⟨Complex.neg_pi_lt_arg _, Complex.arg_le_pi _⟩,
   sliceIndex_mem_of_bearing, sliceIndex_of_wedge, sliceIndex_pi⟩

/-- Witness for C4 at the concrete bearing `0` (and wedge 5). -/
theorem sector_assignment_total_w :
    (1 ≤ sliceIndex 0 ∧ sliceIndex 0 ≤ 8) :=
  sector_assignment_total.2.1 0 (neg_lt_zero.mpr Real.pi_pos) Real.pi_nonneg

/-! ### Concrete evaluation: one measurement point, one reference point -/

/-- The measurement point `M = (north 0, east 0, height 100)` of the
spec's worked example. -/
noncomputable def mEx : MeasurementPoint := MeasurementPoint.init 1 0 0 100

/-- The reference point `R` with `(north, east, height) = (0, 1000, 50)`
of the spec's worked example, read literally. -/
noncomputable def rEx : ReferencePoint := ⟨2, 0, 1000, 50⟩

/-- The binning state after running the driver on `mEx` with the single
reference point `rEx`. -/
noncomputable def mExB : MeasurementPoint := connectAll mEx [rEx]

theorem dist_mEx_rEx : mEx.distance_to rEx = 1000 := by
  unfold MeasurementPoint.distance_to
  have h1 : (mEx.north - rEx.north) ^ 2 + (mEx.east - rEx.east) ^ 2 = 1000 ^ 2 := by
    simp [mEx, rEx, MeasurementPoint.init]
  rw [h1, Real.sqrt_sq (by norm_num : (0 : ℝ) ≤ 1000)]

theorem angle_mEx_rEx : mEx.angle_to rEx = Real.pi / 2 := by
  unfold MeasurementPoint.angle_to atan2
  rw [Complex.arg_eq_pi_div_two_iff]
  constructor <;> simp [mEx, rEx, MeasurementPoint.init]

theorem sliceIndex_half_pi : sliceIndex (Real.pi / 2) = 7 := by
  have hπ : Real.pi ≠ 0 := Real.pi_ne_zero
  have hx : (Real.pi / 2 + Real.pi) / (Real.pi / 4) = 6 := by
    field_simp
    ring
  unfold sliceIndex pyInt
  rw [hx, if_pos (by norm_num : (0 : ℝ) ≤ 6),
    show ((6 : ℝ)) = ((6 : ℤ) : ℝ) by norm_num, Int.floor_intCast]
  decide

theorem mExB_eq : mExB = mEx.connect_reference_point rEx 1000 (Real.pi / 2) := by
  show mEx.connect_reference_point rEx (mEx.distance_to rEx) (mEx.angle_to rEx) = _
  rw [dist_mEx_rEx, angle_mEx_rEx]

theorem mExB_farthest_seven : (mExB.slice_distances 7).farthest = 1000 := by
  rw [mExB_eq, connect_farthest,
    if_pos ⟨by norm_num [ref_point_seek_range], sliceIndex_half_pi⟩]
  have h0 : (mEx.slice_distances 7).farthest = 0 := by
    simp [mEx, MeasurementPoint.init]
  rw [h0]
  norm_num

theorem mExB_farthest_other (i : ℤ) (hi : i ≠ 7) :
    (mExB.slice_distances i).farthest = 0 := by
  rw [mExB_eq, connect_farthest,
    if_neg (fun h => hi (h.2.symm.trans sliceIndex_half_pi))]
  simp [mEx, MeasurementPoint.init]

theorem mExB_closest_seven : (mExB.slice_distances 7).closest = ((1000 : ℝ) : EReal) := by
  rw [mExB_eq, connect_closest,
    if_pos ⟨by norm_num [ref_point_seek_range], sliceIndex_half_pi⟩]
  have h0 : (mEx.slice_distances 7).closest = ⊤ := by
    simp [mEx, MeasurementPoint.init]
  rw [h0]
  unfold updateClosest
  rw [if_neg (fun hco => EReal.coe_ne_top _ (top_le_iff.mp hco))]

theorem mExB_links : mExB.connected_refs =
    [{ ref_point := rEx, distance := 1000, slice := 7 }] := by
  rw [mExB_eq, connect_links, if_pos (by norm_num [ref_point_seek_range])]
  simp [mEx, MeasurementPoint.init, sliceIndex_half_pi]

theorem mExB_height : mExB.height = 100 := by
  rw [mExB_eq, connect_height]
  simp [mEx, MeasurementPoint.init]

theorem mExB_correction : calculate_correction mExB =
    (1000 + 100 - Real.sqrt (100 ^ 2 + 1000 ^ 2)) *
      ((2 / 8) * Real.pi * gravity_constant * rho * 10 ^ 5) := by
  have hs7 : sliceSummand mExB 7 =
      1000 - 0 + Real.sqrt (100 ^ 2 + 0 ^ 2) - Real.sqrt (100 ^ 2 + 1000 ^ 2) := by
    rw [sliceSummand_eq, if_pos (by rw [mExB_farthest_seven]; norm_num),
      mExB_farthest_seven, mExB_height]
  have hs0 : ∀ i : ℤ, i ≠ 7 → sliceSummand mExB i = 0 := fun i hi =>
    sliceSummand_of_farthest_zero mExB i (mExB_farthest_other i hi)
  have hsqrt1 : Real.sqrt ((100 : ℝ) ^ 2 + 0 ^ 2) = 100 := by
    rw [show ((100 : ℝ) ^ 2 + 0 ^ 2) = 100 ^ 2 by ring,
      Real.sqrt_sq (by norm_num : (0 : ℝ) ≤ 100)]
  have hsum : ((List.range 8).map (fun (k : ℕ) => sliceSummand mExB ((k : ℤ) + 1))).sum =
      1000 + 100 - Real.sqrt (100 ^ 2 + 1000 ^ 2) := by
    rw [List.range_succ, List.range_succ, List.range_succ, List.range_succ,
      List.range_succ, List.range_succ, List.range_succ, List.range_succ,
      List.range_zero]
    simp only [List.map_append, List.map_cons, List.map_nil, List.sum_append,
      List.sum_cons, List.sum_nil, List.nil_append]
    norm_num [hs7, hsqrt1, hs0 1 (by decide), hs0 2 (by decide), hs0 3 (by decide),
      hs0 4 (by decide), hs0 5 (by decide), hs0 6 (by decide), hs0 8 (by decide)]
    rw [show (10000 : ℝ) = 100 ^ 2 by norm_num,
      Real.sqrt_sq (by norm_num : (0 : ℝ) ≤ 100)]
    norm_num
  unfold calculate_correction
  rw [hsum]

theorem sqrt_code_value_lt : Real.sqrt ((100 : ℝ) ^ 2 + 1000 ^ 2) < 1005 := by
  rw [Real.sqrt_lt' (by norm_num : (0 : ℝ) < 1005)]
  norm_num

theorem sqrt_claim_value_gt : (1001 : ℝ) < Real.sqrt ((50 : ℝ) ^ 2 + 1000 ^ 2) := by
  rw [Real.lt_sqrt (by norm_num : (0 : ℝ) ≤ 1001)]
  norm_num

/-- C1 (the code at the failing input): bin 7 is non-empty — its link
list holds one reference point of height 50 — yet the production
filter (which compares the link's integer slice with the bin dict)
selects no heights, so the engine uses the fallback
`h = m.height = 100` instead of the sector mean `50`, and the resulting
correction differs from the value the claim requires. -/
theorem production_height_filter_dead :
    sectorLinks mExB 7 ≠ [] ∧
    ((mExB.connected_refs.filter
        (fun link => pyIntEqDict link.slice (mExB.slice_distances 7))).map
      (fun link => link.ref_point.height)) = [] ∧
    calculate_correction mExB =
      (1000 + 100 - Real.sqrt (100 ^ 2 + 1000 ^ 2)) *
        ((2 / 8) * Real.pi * gravity_constant * rho * 10 ^ 5) ∧
    calculate_correction mExB ≠
      (1000 + 50 - Real.sqrt (50 ^ 2 + 1000 ^ 2)) *
        ((2 / 8) * Real.pi * gravity_constant * rho * 10 ^ 5) := by
  refine ⟨?_, ?_, mExB_correction, ?_⟩
  · unfold sectorLinks
    rw [mExB_links]
    simp
  · simp only [pyIntEqDict, filter_false_eq_nil, List.map_nil]
  · rw [mExB_correction]
    apply ne_of_gt
    apply mul_lt_mul_of_pos_right _ scale_factor_pos
    have h1 := sqrt_code_value_lt
    have h2 := sqrt_claim_value_gt
    linarith

/-- C2 counterexample: for the example input, read literally
(`R.north = 0`, `R.east = 1000`), the bearing from `M` to `R` is `π/2`,
so the pair lands in sector 7, not in sector 5 as claimed. -/
theorem claimed_sector_not_assigned : sliceIndex (mEx.angle_to rEx) ≠ 5 := by
  rw [angle_mEx_rEx, sliceIndex_half_pi]
  decide

/-- C2 (amended): for `M = (0, 0, 100)` and the single reference point
`R = (north 0, east 1000, height 50)` under cutoff 1200, the offset is
due east, so the bearing is `π/2` and the sector is 7; sector 7 gets
`farthest = closest = 1000`; the production height filter matches
nothing, so `h = m.height = 100`; every other sector stays empty and
contributes 0; and the total correction is
`(1000 + 100 - sqrt(100^2 + 1000^2)) * (2/8)*π*G*ρ*10^5`. -/
theorem single_ref_point_evaluation :
    mEx.angle_to rEx = Real.pi / 2 ∧
    sliceIndex (mEx.angle_to rEx) = 7 ∧
    (mExB.slice_distances 7).farthest = 1000 ∧
    (mExB.slice_distances 7).closest = ((1000 : ℝ) : EReal) ∧
    (∀ i : ℤ, i ≠ 7 → (mExB.slice_distances i).farthest = 0 ∧ sectorLinks mExB i = []) ∧
    calculate_correction mExB =
      (1000 + 100 - Real.sqrt (100 ^ 2 + 1000 ^ 2)) *
        ((2 / 8) * Real.pi * gravity_constant * rho * 10 ^ 5) := by
  refine ⟨angle_mEx_rEx, by rw [angle_mEx_rEx]; exact sliceIndex_half_pi,
    mExB_farthest_seven, mExB_closest_seven, ?_, mExB_correction⟩
  intro i hi
  refine ⟨mExB_farthest_other i hi, ?_⟩
  unfold sectorLinks
  rw [mExB_links]
  simp [hi.symm]

/-- Witness for C2's amended statement at the concrete sector 1. -/
theorem single_ref_point_evaluation_w :
    (mExB.slice_distances 1).farthest = 0 ∧ sectorLinks mExB 1 = [] :=
  single_ref_point_evaluation.2.2.2.2.1 1 (by decide)

/-! ### A reference point at distance zero -/

/-- A reference point with the same planar coordinates as `mEx`. -/
noncomputable def rEx0 : ReferencePoint := ⟨3, 0, 0, 50⟩

/-- The binning state after running the driver on `mEx` with the single
coincident reference point `rEx0`. -/
noncomputable def mExZ : MeasurementPoint := connectAll mEx [rEx0]

theorem dist_mEx_rEx0 : mEx.distance_to rEx0 = 0 := by
  unfold MeasurementPoint.distance_to
  have h1 : (mEx.north - rEx0.north) ^ 2 + (mEx.east - rEx0.east) ^ 2 = 0 := by
    simp [mEx, rEx0, MeasurementPoint.init]
  rw [h1, Real.sqrt_zero]

theorem angle_mEx_rEx0 : mEx.angle_to rEx0 = 0 := by
  unfold MeasurementPoint.angle_to atan2
  have h1 : (⟨rEx0.north - mEx.north, rEx0.east - mEx.east⟩ : ℂ) = 0 := by
    rw [Complex.ext_iff]
    constructor <;> simp [mEx, rEx0, MeasurementPoint.init]
  rw [h1, Complex.arg_zero]

theorem sliceIndex_zero : sliceIndex 0 = 5 := by
  have hπ : Real.pi ≠ 0 := Real.pi_ne_zero
  have hx : ((0 : ℝ) + Real.pi) / (Real.pi / 4) = 4 := by
    field_simp
  unfold sliceIndex pyInt
  rw [hx, if_pos (by norm_num : (0 : ℝ) ≤ 4),
    show ((4 : ℝ)) = ((4 : ℤ) : ℝ) by norm_num, Int.floor_intCast]
  decide

theorem mExZ_eq : mExZ = mEx.connect_reference_point rEx0 0 0 := by
  show mEx.connect_reference_point rEx0 (mEx.distance_to rEx0) (mEx.angle_to rEx0) = _
  rw [dist_mEx_rEx0, angle_mEx_rEx0]

theorem mExZ_links : mExZ.connected_refs =
    [{ ref_point := rEx0, distance := 0, slice := 5 }] := by
  rw [mExZ_eq, connect_links, if_pos (by norm_num [ref_point_seek_range])]
  simp [mEx, MeasurementPoint.init, sliceIndex_zero]

theorem mExZ_farthest_five : (mExZ.slice_distances 5).farthest = 0 := by
  rw [mExZ_eq, connect_farthest,
    if_pos ⟨by norm_num [ref_point_seek_range], sliceIndex_zero⟩]
  have h0 : (mEx.slice_distances 5).farthest = 0 := by
    simp [mEx, MeasurementPoint.init]
  rw [h0, max_self]

/-- C5 counterexample: after accepting a reference point at distance 0
(same coordinates, within the cutoff), sector 5's bin has a member in
the link list while `farthest` is still 0, so the claimed equivalence
fails at this reachable state. -/
theorem member_with_zero_farthest :
    ¬ (0 < (mExZ.slice_distances 5).farthest ↔ sectorLinks mExZ 5 ≠ []) := by
  have hmem : sectorLinks mExZ 5 ≠ [] := by
    unfold sectorLinks
    rw [mExZ_links]
    simp
  intro hiff
  have := hiff.mpr hmem
  rw [mExZ_farthest_five] at this
  exact lt_irrefl 0 this

/-! ### The farthest/membership invariant -/

theorem connect_farthest_member_step (m : MeasurementPoint) (r : ReferencePoint)
    (d θ : ℝ) (hd : 0 < d)
    (hm : ∀ i, 0 < (m.slice_distances i).farthest ↔ sectorLinks m i ≠ []) :
    ∀ i, 0 < ((m.connect_reference_point r d θ).slice_distances i).farthest ↔
      sectorLinks (m.connect_reference_point r d θ) i ≠ [] := by
  intro i
  by_cases hacc : d ≤ ref_point_seek_range
  · rw [connect_farthest]
    unfold sectorLinks
    rw [connect_links, if_pos hacc, List.filter_append]
    by_cases hs : sliceIndex θ = i
    · rw [if_pos ⟨hacc, hs⟩]
      constructor
      · intro _
        simp [hs]
      · intro _
        exact lt_of_lt_of_le hd (le_max_right _ _)
    · rw [if_neg (fun h => hs h.2)]
      have hnil : List.filter (fun link : RefLink => link.slice == i)
          [{ ref_point := r, distance := d, slice := sliceIndex θ }] = [] := by
        simp [hs]
      rw [hnil, List.append_nil]
      exact hm i
  · rw [connect_of_far (not_le.mp hacc)]
    exact hm i

theorem connectList_farthest_member (l : List (ReferencePoint × ℝ × ℝ)) :
    ∀ m : MeasurementPoint, (∀ p ∈ l, 0 < p.2.1) →
      (∀ i, 0 < (m.slice_distances i).farthest ↔ sectorLinks m i ≠ []) →
      ∀ i, 0 < ((connectList m l).slice_distances i).farthest ↔
        sectorLinks (connectList m l) i ≠ [] := by
  induction l with
  | nil => intro m _ hm i; exact hm i
  | cons p t ih =>
      intro m hl hm i
      rw [connectList_cons]
      exact ih _ (fun q hq => hl q (List.mem_cons_of_mem p hq))
        (connect_farthest_member_step m p.1 p.2.1 p.2.2
          (hl p (List.mem_cons_self p t)) hm) i

/-- C5 (amended): after any sequence of `connect_reference_point` calls
on a freshly initialised measurement point in which every offered
distance is strictly positive, each sector bin satisfies
`farthest > 0` iff the bin has at least one member in the link list for
that sector.  (A distance of exactly 0 is accepted into the link list
while `farthest` stays 0, which is why positivity is required.) -/
theorem farthest_pos_iff_member (pid : ℤ) (n e h : ℝ)
    (l : List (ReferencePoint × ℝ × ℝ)) (hl : ∀ p ∈ l, 0 < p.2.1) (i : ℤ) :
    0 < ((connectList (MeasurementPoint.init pid n e h) l).slice_distances i).farthest ↔
      sectorLinks (connectList (MeasurementPoint.init pid n e h) l) i ≠ [] := by
  refine connectList_farthest_member l _ hl (fun j => ?_) i
  simp [MeasurementPoint.init, sectorLinks]

/-- Witness for C5's amended statement: a one-call sequence at a
strictly positive distance. -/
theorem farthest_pos_iff_member_w :
    0 < ((connectList (MeasurementPoint.init 1 0 0 100)
        [(⟨2, 0, 1000, 50⟩, 1000, 0)]).slice_distances 5).farthest ↔
      sectorLinks (connectList (MeasurementPoint.init 1 0 0 100)
        [(⟨2, 0, 1000, 50⟩, 1000, 0)]) 5 ≠ [] :=
  farthest_pos_iff_member 1 0 0 100 _ (by norm_num) 5

/-! ### The closest-update semantics -/

theorem updateClosest_eq_min (c : EReal) (d : ℝ) (_hd : d ≤ ref_point_seek_range)
    (hc : c = ⊤ ∨ c ≤ (ref_point_seek_range : EReal)) :
    updateClosest c d = min c ((d : ℝ) : EReal) := by
  unfold updateClosest
  rcases hc with hc | hc
  · subst hc
    rw [if_neg (fun hco => EReal.coe_ne_top _ (top_le_iff.mp hco))]
    exact (min_eq_right le_top).symm
  · rw [if_pos hc]

theorem updateClosest_top (d : ℝ) (_hd : d ≤ ref_point_seek_range) :
    updateClosest ⊤ d = ((d : ℝ) : EReal) := by
  unfold updateClosest
  rw [if_neg (fun hco => EReal.coe_ne_top _ (top_le_iff.mp hco))]

theorem connectList_closest_bounded (l : List (ReferencePoint × ℝ × ℝ)) :
    ∀ m : MeasurementPoint,
      (∀ i, (m.slice_distances i).closest = ⊤ ∨
        (m.slice_distances i).closest ≤ (ref_point_seek_range : EReal)) →
      ∀ i, ((connectList m l).slice_distances i).closest = ⊤ ∨
        ((connectList m l).slice_distances i).closest ≤ (ref_point_seek_range : EReal) := by
  induction l with
  | nil => intro m hm i; exact hm i
  | cons p t ih =>
      intro m hm i
      rw [connectList_cons]
      refine ih _ (fun j => ?_) i
      rw [connect_closest]
      by_cases hcond : p.2.1 ≤ ref_point_seek_range ∧ sliceIndex p.2.2 = j
      · rw [if_pos hcond]
        right
        unfold updateClosest
        split_ifs with hc
        · exact le_trans (min_le_right _ _) (EReal.coe_le_coe_iff.mpr hcond.1)
        · exact EReal.coe_le_coe_iff.mpr hcond.1
      · rw [if_neg hcond]
        exact hm j

/-- C7: for every accepted distance `d` (within the cutoff), the bin's
conditional `closest` update is exactly `min(previous closest, d)` with
the unset sentinel `inf` treated as the top element: in particular the
first accepted distance always replaces the sentinel, and the states
reachable from a fresh measurement point always satisfy the side
condition (`closest` is the sentinel or at most the cutoff) under which
the conditional and `min` agree. -/
theorem closest_update_min_semantics :
    (∀ (c : EReal) (d : ℝ), d ≤ ref_point_seek_range →
      (c = ⊤ ∨ c ≤ (ref_point_seek_range : EReal)) →
      updateClosest c d = min c ((d : ℝ) : EReal)) ∧
    (∀ d : ℝ, d ≤ ref_point_seek_range → updateClosest ⊤ d = ((d : ℝ) : EReal)) ∧
    (∀ (pid : ℤ) (n e h : ℝ) (l : List (ReferencePoint × ℝ × ℝ)) (i : ℤ),
      ((connectList (MeasurementPoint.init pid n e h) l).slice_distances i).closest = ⊤ ∨
      ((connectList (MeasurementPoint.init pid n e h) l).slice_distances i).closest ≤
        (ref_point_seek_range : EReal)) :=
  ⟨updateClosest_eq_min, updateClosest_top,
   fun _ _ _ _ l i =>
     connectList_closest_bounded l _ (fun _ => Or.inl rfl) i⟩

/-- Witness for C7: the first accepted distance replaces the sentinel. -/
theorem closest_update_min_semantics_w :
    updateClosest ⊤ 1000 = ((1000 : ℝ) : EReal) :=
  closest_update_min_semantics.2.1 1000 (by norm_num [ref_point_seek_range])

/-! ### Empty or fully rejected reference sequences -/

theorem correction_init_zero (pid : ℤ) (n e h : ℝ) :
    calculate_correction (MeasurementPoint.init pid n e h) = 0 := by
  have hz : ∀ k : ℕ,
      sliceSummand (MeasurementPoint.init pid n e h) ((k : ℤ) + 1) = 0 := fun k =>
    sliceSummand_of_farthest_zero _ _ (by simp [MeasurementPoint.init])
  unfold calculate_correction
  have hsum : ((List.range 8).map
      (fun (k : ℕ) => sliceSummand (MeasurementPoint.init pid n e h) ((k : ℤ) + 1))).sum = 0 := by
    apply List.sum_eq_zero
    intro x hx
    obtain ⟨k, _, hk⟩ := List.mem_map.mp hx
    rw [← hk]
    exact hz k
  rw [hsum, zero_mul]

/-- C8: with an empty reference-point sequence the driver leaves a fresh
measurement point untouched, all 8 bins of a fresh point are empty
(`farthest = 0`, no members), the correction of that state is exactly 0,
and more generally whenever no reference point is accepted (all are
beyond the cutoff) the correction is exactly 0. -/
theorem empty_reference_sequence_zero (pid : ℤ) (n e h : ℝ) :
    connectAll (MeasurementPoint.init pid n e h) [] = MeasurementPoint.init pid n e h ∧
    (∀ i : ℤ, ((MeasurementPoint.init pid n e h).slice_distances i).farthest = 0 ∧
      sectorLinks (MeasurementPoint.init pid n e h) i = []) ∧
    calculate_correction (MeasurementPoint.init pid n e h) = 0 ∧
    ∀ rs : List ReferencePoint,
      (∀ r ∈ rs, ref_point_seek_range < (MeasurementPoint.init pid n e h).distance_to r) →
      calculate_correction (connectAll (MeasurementPoint.init pid n e h) rs) = 0 := by
  refine ⟨rfl, fun i => by simp [MeasurementPoint.init, sectorLinks],
    correction_init_zero pid n e h, ?_⟩
  intro rs
  induction rs with
  | nil => intro _; exact correction_init_zero pid n e h
  | cons r t ih =>
      intro hrs
      rw [connectAll_cons, connect_of_far (hrs r (List.mem_cons_self r t))]
      exact ih (fun r' hr' => hrs r' (List.mem_cons_of_mem r hr'))

/-- Witness for C8: the empty sequence gives correction 0. -/
theorem empty_reference_sequence_zero_w :
    calculate_correction (connectAll (MeasurementPoint.init 1 0 0 100) []) = 0 :=
  (empty_reference_sequence_zero 1 0 0 100).2.2.2 [] (by simp)

/-! ### Order-independence of the batch driver -/

theorem foldl_perm_of_left_comm {α β : Type _} (f : β → α → β)
    (hf : ∀ b x y, f (f b x) y = f (f b y) x) :
    ∀ {l₁ l₂ : List α}, l₁.Perm l₂ → ∀ b, l₁.foldl f b = l₂.foldl f b := by
  intro l₁ l₂ hp
  induction hp with
  | nil => intro b; rfl
  | cons x _ ih =>
      intro b
      rw [List.foldl_cons, List.foldl_cons, ih]
  | swap x y l =>
      intro b
      rw [List.foldl_cons, List.foldl_cons, List.foldl_cons, List.foldl_cons, hf]
  | trans _ _ ih₁ ih₂ =>
      intro b
      rw [ih₁, ih₂]

theorem connectAll_farthest (rs : List ReferencePoint) :
    ∀ (m : MeasurementPoint) (i : ℤ),
      ((connectAll m rs).slice_distances i).farthest =
        rs.foldl
          (fun acc r =>
            if m.distance_to r ≤ ref_point_seek_range ∧ sliceIndex (m.angle_to r) = i then
              max acc (m.distance_to r)
            else acc)
          ((m.slice_distances i).farthest) := by
  induction rs with
  | nil => intro m i; rfl
  | cons r t ih =>
      intro m i
      rw [connectAll_cons, ih]
      have hfun : (fun (acc : ℝ) (r' : ReferencePoint) =>
          if (m.connect_reference_point r (m.distance_to r) (m.angle_to r)).distance_to r' ≤
                ref_point_seek_range ∧
              sliceIndex ((m.connect_reference_point r (m.distance_to r)
                (m.angle_to r)).angle_to r') = i then
            max acc ((m.connect_reference_point r (m.distance_to r)
              (m.angle_to r)).distance_to r')
          else acc) =
          (fun (acc : ℝ) (r' : ReferencePoint) =>
            if m.distance_to r' ≤ ref_point_seek_range ∧
                sliceIndex (m.angle_to r') = i then
              max acc (m.distance_to r')
            else acc) := by
        funext acc r'
        rw [connect_distance_to, connect_angle_to]
      rw [hfun, connect_farthest, List.foldl_cons]

/-- C9: reordering the reference-point input sequence does not change
any output correction of the batch driver. -/
theorem batch_corrections_perm_invariant (measurement_points : List MeasurementPoint)
    (rs₁ rs₂ : List ReferencePoint) (hperm : rs₁.Perm rs₂) :
    batchCorrections measurement_points rs₁ = batchCorrections measurement_points rs₂ := by
  unfold batchCorrections
  have hpoint : ∀ m : MeasurementPoint,
      calculate_correction (connectAll m rs₁) = calculate_correction (connectAll m rs₂) := by
    intro m
    apply calculate_correction_congr
    · rw [connectAll_height, connectAll_height]
    · intro i
      rw [connectAll_farthest, connectAll_farthest]
      refine foldl_perm_of_left_comm _ ?_ hperm _
      intro b x y
      dsimp only
      split_ifs <;> first | rfl | exact sup_right_comm b _ _
  simp only [hpoint]

/-- Witness for C9: swapping two reference points leaves the output
unchanged. -/
theorem batch_corrections_perm_invariant_w :
    batchCorrections [mEx] [rEx, rEx0] = batchCorrections [mEx] [rEx0, rEx] :=
  batch_corrections_perm_invariant [mEx] [rEx, rEx0] [rEx0, rEx]
    (List.Perm.swap rEx0 rEx [])
